import Mathlib

/-!
# Verification of the LC-3 virtual machine core

A shallow embedding of the `lc3-vm` Rust sources (`src/vm.rs`,
`src/vm/memory.rs`, `src/vm/registers.rs`, `src/vm/utils.rs`,
`src/vm/opcode.rs`, `src/vm/instructions.rs`, `src/vm/instructions/trap.rs`)
together with theorems settling the specification claims.

Modelling conventions:
* `u16` values are `Nat`s; wrapping arithmetic is explicit `% 65536`.
* Rust panics (out-of-bounds indexing, arithmetic/shift overflow in debug
  builds, `unwrap`/`expect` failures) are `Except.error` values of `VmError`.
* The process-global console is an explicit `IOState`: `input` is the
  sequence of bytes stdin will deliver, `output` the bytes written to stdout.
  A blocked/failed `read_next_byte` on exhausted input is `VmError.ioPanic`.
  Writing to stdout and flushing are modelled as always succeeding.
-/

/-- Ways the interpreter can abort: each constructor corresponds to a panic
site in the Rust sources. -/
inductive VmError where
  /-- The `expect` in `utils::io::read_next_byte` when stdin yields no byte. -/
  | ioPanic : VmError
  /-- Out-of-bounds array indexing panic. -/
  | indexOutOfBounds : VmError
  /-- Debug-build arithmetic overflow panic (underflowing `bit_count - 1` or
  shifting a `u16` by 16 or more in `bit_ops::sign_extend`). -/
  | arithmeticOverflow : VmError
  /-- The panic in `main_loop` on the RTI (8) and reserved (13) opcodes. -/
  | illegalOpcode (op : Nat) : VmError
  /-- The panic in `instructions::trap` on an unsupported trap vector. -/
  | unsupportedTrap (vector : Nat) : VmError
  /-- Rust `Opcode::try_from(..).unwrap()` failure (unreachable for `u16` input). -/
  | unwrapPanic : VmError
deriving DecidableEq

/-- The process console: pending stdin bytes and written stdout bytes. -/
structure IOState where
  input : List Nat
  output : List Nat
deriving DecidableEq

/-- Rust `utils::io::read_next_byte`: reads exactly one byte from stdin,
panicking (`expect`) if none can be read. -/
def read_next_byte (io : IOState) : Except VmError (Nat × IOState) :=
  match io.input with
  | [] => .error .ioPanic
  | b :: rest => .ok (b, { io with input := rest })

/-- Rust `memory::MEMORY_SIZE = u16::MAX as usize` — note this is 65535,
not 65536. -/
def MEMORY_SIZE : Nat := 65535

/-- Rust `mem_mapped_reg_addr::KBSR`: keyboard status register address. -/
def KBSR : Nat := 0xFE00

/-- Rust `mem_mapped_reg_addr::KBDR`: keyboard data register address. -/
def KBDR : Nat := 0xFE02

/-- The vm memory: the backing `[u16; MEMORY_SIZE]` array, modelled as a
function from array index to stored word (only indices `< MEMORY_SIZE`
exist in the Rust array; accesses are bounds-checked in `read`/`write`). -/
structure Memory where
  mem : Nat → Nat

/-- Rust `Memory::new`: zero-filled memory. -/
def Memory.new : Memory := ⟨fun _ => 0⟩

/-- Rust `Memory::read`: if `address` is the keyboard status register, first polls
one byte from stdin and updates the memory-mapped registers (these raw array
stores are at indices `0xFE00`/`0xFE02 < MEMORY_SIZE`, always in bounds);
then returns the word at `address`, with the final `self.mem[address]`
indexing bounds-checked against the actual array length `MEMORY_SIZE`. -/
def Memory.read (m : Memory) (io : IOState) (address : Nat) :
    Except VmError (Nat × Memory × IOState) :=
  match
    (if address = KBSR then
      match read_next_byte io with
      | .error e => .error e
      | .ok (chr, io1) =>
        if chr ≠ 0 then
          .ok (({ mem := fun i =>
                    if i = KBDR then chr
                    else if i = KBSR then 0x8000
                    else m.mem i } : Memory), io1)
        else
          .ok (({ mem := fun i =>
                    if i = KBSR then 0 else m.mem i } : Memory), io1)
    else .ok (m, io) : Except VmError (Memory × IOState))
  with
  | .error e => .error e
  | .ok (m1, io1) =>
    if address < MEMORY_SIZE then .ok (m1.mem address, m1, io1)
    else .error .indexOutOfBounds

/-- Rust `Memory::write`: stores `value` at `address`; the indexing panics when
`address` is not below the array length `MEMORY_SIZE`. -/
def Memory.write (m : Memory) (address value : Nat) : Except VmError Memory :=
  if address < MEMORY_SIZE then
    .ok ⟨fun i => if i = address then value else m.mem i⟩
  else .error .indexOutOfBounds

/-- Rust `registers::CondFlag` (NZP: Negative, Zero, Positive). -/
inductive CondFlag where
  | pos : CondFlag
  | zero : CondFlag
  | neg : CondFlag
deriving DecidableEq

/-- The `#[repr(u16)]` discriminants: `Pos = 0b001`, `Zero = 0b010`,
`Neg = 0b100` (used by `regs.cond as u16` in `br`). -/
def CondFlag.toNat : CondFlag → Nat
  | .pos => 0b001
  | .zero => 0b010
  | .neg => 0b100

/-- Rust `registers::PC_START`. -/
def PC_START : Nat := 0x3000

/-- Rust `registers::Registers`: the `[u16; 8]` base register array (modelled as a
function; every caller derives the index from a 3-bit instruction field, so
only indices `0..8` are ever used, matching the documented contract), the
program counter and the condition flag. -/
structure Registers where
  base_regs : Nat → Nat
  pc : Nat
  cond : CondFlag

/-- Rust `Registers::new`. -/
def Registers.new : Registers := ⟨fun _ => 0, PC_START, .zero⟩

/-- Rust `Registers::read` (callers guarantee `base_register_index < 8`). -/
def Registers.read (r : Registers) (base_register_index : Nat) : Nat :=
  r.base_regs base_register_index

/-- Rust `Registers::write` (callers guarantee `base_register_index < 8`). -/
def Registers.write (r : Registers) (base_register_index value : Nat) :
    Registers :=
  { r with base_regs := fun i =>
      if i = base_register_index then value else r.base_regs i }

/-- Rust `Registers::update_cond_flags`. -/
def Registers.update_cond_flags (r : Registers) (last_value : Nat) :
    Registers :=
  { r with cond :=
      if last_value = 0 then .zero
      else if last_value >>> 15 = 1 then .neg
      else .pos }

/-- Rust `bit_ops::sign_extend`, with the debug-build panics made explicit:
`bit_count - 1` underflows when `bit_count = 0`; shifting the `u16` operands
by an amount `≥ 16` overflows.  The `u16` result of `0xFFFF << bit_count`
keeps only the low 16 bits. -/
def sign_extend (value : Nat) (bit_count : Nat) : Except VmError Nat :=
  if bit_count = 0 then .error .arithmeticOverflow
  else if 16 ≤ bit_count - 1 then .error .arithmeticOverflow
  else if (value >>> (bit_count - 1)) &&& 0x1 = 0x1 then
    if 16 ≤ bit_count then .error .arithmeticOverflow
    else .ok (value ||| ((0xFFFF <<< bit_count) % 65536))
  else .ok value

namespace instructions

/-- Rust `instructions::br`: conditional branch.  `nzp` is the unmasked
`instr >> 9`; the bitwise AND with the `u16` discriminant of the flag acts as
the mask. -/
def br (instr : Nat) (regs : Registers) : Except VmError Registers :=
  let nzp := instr >>> 9
  if nzp &&& regs.cond.toNat > 0 then
    match sign_extend (instr &&& 0x1FF) 9 with
    | .error e => .error e
    | .ok pc_offset => .ok { regs with pc := (regs.pc + pc_offset) % 65536 }
  else .ok regs

/-- Rust `instructions::add`: addition, immediate mode when bit 5 is set. -/
def add (instr : Nat) (regs : Registers) : Except VmError Registers :=
  let dest_reg := (instr >>> 9) &&& 0x7
  let src_reg1 := (instr >>> 6) &&& 0x7
  let mode := (instr >>> 5) &&& 0x1
  match
    (if mode = 0x1 then
      match sign_extend (instr &&& 0x1F) 5 with
      | .error e => .error e
      | .ok imm => .ok ((regs.read src_reg1 + imm) % 65536)
    else
      .ok ((regs.read src_reg1 + regs.read (instr &&& 0x7)) % 65536)
      : Except VmError Nat)
  with
  | .error e => .error e
  | .ok value => .ok ((regs.write dest_reg value).update_cond_flags value)

/-- Rust `instructions::ld`: PC-relative load. -/
def ld (instr : Nat) (regs : Registers) (mem : Memory) (io : IOState) :
    Except VmError (Registers × Memory × IOState) :=
  let dest_reg := (instr >>> 9) &&& 0x7
  match sign_extend (instr &&& 0x1FF) 9 with
  | .error e => .error e
  | .ok pc_offset =>
    match mem.read io ((regs.pc + pc_offset) % 65536) with
    | .error e => .error e
    | .ok (value, m1, io1) =>
      .ok ((regs.write dest_reg value).update_cond_flags value, m1, io1)

/-- Rust `instructions::st`: PC-relative store (registers are untouched: the Rust
function takes `&Registers`). -/
def st (instr : Nat) (regs : Registers) (mem : Memory) :
    Except VmError Memory :=
  let src_reg := (instr >>> 9) &&& 0x7
  match sign_extend (instr &&& 0x1FF) 9 with
  | .error e => .error e
  | .ok pc_offset =>
    mem.write ((regs.pc + pc_offset) % 65536) (regs.read src_reg)

/-- Rust `instructions::jsr`: jump to subroutine.  R7 is saved *before* the pc is
changed, in both forms. -/
def jsr (instr : Nat) (regs : Registers) : Except VmError Registers :=
  let regs := regs.write 7 regs.pc
  let flag := (instr >>> 11) &&& 0x1
  if flag = 0x1 then
    match sign_extend (instr &&& 0x7FF) 11 with
    | .error e => .error e
    | .ok pc_offset => .ok { regs with pc := (regs.pc + pc_offset) % 65536 }
  else
    let base_reg := (instr >>> 6) &&& 0x7
    .ok { regs with pc := regs.read base_reg }

/-- Rust `instructions::and`: bitwise AND, immediate mode when bit 5 is set. -/
def and (instr : Nat) (regs : Registers) : Except VmError Registers :=
  let dest_reg := (instr >>> 9) &&& 0x7
  let src_reg1 := (instr >>> 6) &&& 0x7
  let mode := (instr >>> 5) &&& 0x1
  match
    (if mode = 0x1 then
      match sign_extend (instr &&& 0x1F) 5 with
      | .error e => .error e
      | .ok imm => .ok (regs.read src_reg1 &&& imm)
    else
      .ok (regs.read src_reg1 &&& regs.read (instr &&& 0x7))
      : Except VmError Nat)
  with
  | .error e => .error e
  | .ok value => .ok ((regs.write dest_reg value).update_cond_flags value)

/-- Rust `instructions::ldr`: base + offset load. -/
def ldr (instr : Nat) (regs : Registers) (mem : Memory) (io : IOState) :
    Except VmError (Registers × Memory × IOState) :=
  let dest_reg := (instr >>> 9) &&& 0x7
  let base_reg := (instr >>> 6) &&& 0x7
  match sign_extend (instr &&& 0x3F) 6 with
  | .error e => .error e
  | .ok offset =>
    match mem.read io ((regs.read base_reg + offset) % 65536) with
    | .error e => .error e
    | .ok (value, m1, io1) =>
      .ok ((regs.write dest_reg value).update_cond_flags value, m1, io1)

/-- Rust `instructions::str`: base + offset store (registers untouched). -/
def str (instr : Nat) (regs : Registers) (mem : Memory) :
    Except VmError Memory :=
  let src_reg := (instr >>> 9) &&& 0x7
  let base_reg := (instr >>> 6) &&& 0x7
  match sign_extend (instr &&& 0x3F) 6 with
  | .error e => .error e
  | .ok offset =>
    mem.write ((regs.read base_reg + offset) % 65536) (regs.read src_reg)

/-- Rust `instructions::not`: bitwise complement (`!x` on a `u16` flips the low
16 bits, i.e. XOR with `0xFFFF`). -/
def not (instr : Nat) (regs : Registers) : Except VmError Registers :=
  let dest_reg := (instr >>> 9) &&& 0x7
  let src_reg := (instr >>> 6) &&& 0x7
  let value := regs.read src_reg ^^^ 0xFFFF
  .ok ((regs.write dest_reg value).update_cond_flags value)

/-- Rust `instructions::ldi`: indirect load (two memory reads). -/
def ldi (instr : Nat) (regs : Registers) (mem : Memory) (io : IOState) :
    Except VmError (Registers × Memory × IOState) :=
  let dest_reg := (instr >>> 9) &&& 0x7
  match sign_extend (instr &&& 0x1FF) 9 with
  | .error e => .error e
  | .ok pc_offset =>
    match mem.read io ((regs.pc + pc_offset) % 65536) with
    | .error e => .error e
    | .ok (mem_addr, m1, io1) =>
      match m1.read io1 mem_addr with
      | .error e => .error e
      | .ok (value, m2, io2) =>
        .ok ((regs.write dest_reg value).update_cond_flags value, m2, io2)

/-- Rust `instructions::sti`: indirect store (registers untouched). -/
def sti (instr : Nat) (regs : Registers) (mem : Memory) (io : IOState) :
    Except VmError (Memory × IOState) :=
  let src_reg := (instr >>> 9) &&& 0x7
  match sign_extend (instr &&& 0x1FF) 9 with
  | .error e => .error e
  | .ok pc_offset =>
    match mem.read io ((regs.pc + pc_offset) % 65536) with
    | .error e => .error e
    | .ok (mem_addr, m1, io1) =>
      match m1.write mem_addr (regs.read src_reg) with
      | .error e => .error e
      | .ok m2 => .ok (m2, io1)

/-- Rust `instructions::jmp` (also RET when BaseR is R7). -/
def jmp (instr : Nat) (regs : Registers) : Except VmError Registers :=
  let base_reg := (instr >>> 6) &&& 0x7
  .ok { regs with pc := regs.read base_reg }

/-- Rust `instructions::lea`: load effective address. -/
def lea (instr : Nat) (regs : Registers) : Except VmError Registers :=
  let dest_reg := (instr >>> 9) &&& 0x7
  match sign_extend (instr &&& 0x1FF) 9 with
  | .error e => .error e
  | .ok pc_offset =>
    let value := (regs.pc + pc_offset) % 65536
    .ok ((regs.write dest_reg value).update_cond_flags value)

/-- Rust `trap::TrapCode`. -/
inductive TrapCode where
  | getc : TrapCode
  | out : TrapCode
  | puts : TrapCode
  | tIn : TrapCode
  | putsp : TrapCode
  | halt : TrapCode
deriving DecidableEq

/-- Rust `TrapCode::try_from`. -/
def TrapCode.try_from (value : Nat) : Option TrapCode :=
  match value with
  | 0x20 => some .getc
  | 0x21 => some .out
  | 0x22 => some .puts
  | 0x23 => some .tIn
  | 0x24 => some .putsp
  | 0x25 => some .halt
  | _ => none

/-- Rust `trap::getc`: read one byte from stdin, zero-extended into R0. -/
def getc (regs : Registers) (io : IOState) :
    Except VmError (Registers × IOState) :=
  match read_next_byte io with
  | .error e => .error e
  | .ok (b, io1) => .ok (regs.write 0 b, io1)

/-- Rust `trap::out`: write the low 8 bits of R0 to stdout and flush. -/
def out (regs : Registers) (io : IOState) : IOState :=
  { io with output := io.output ++ [regs.read 0 % 256] }

/-- The loop body of `trap::puts`: `for mem_addr in R0..MEMORY_SIZE`, read a
word (this is `Memory::read`, so crossing the keyboard status address polls
stdin), stop at the first zero word, otherwise print the low byte. -/
def puts_loop (mem : Memory) (io : IOState) (mem_addr : Nat) :
    Except VmError (Memory × IOState) :=
  if _h : mem_addr < MEMORY_SIZE then
    match mem.read io mem_addr with
    | .error e => .error e
    | .ok (chr, m1, io1) =>
      if chr = 0 then .ok (m1, io1)
      else puts_loop m1 { io1 with output := io1.output ++ [chr % 256] }
        (mem_addr + 1)
  else .ok (mem, io)
termination_by MEMORY_SIZE - mem_addr
decreasing_by omega

/-- Rust `trap::puts`. -/
def puts (regs : Registers) (mem : Memory) (io : IOState) :
    Except VmError (Memory × IOState) :=
  puts_loop mem io (regs.read 0)

/-- The loop body of `trap::putsp`: like `puts` but each nonzero word emits
its big-endian byte pair low byte first (`to_be_bytes` gives `[hi, lo]`,
printed `lo` then `hi`); only an all-zero word terminates. -/
def putsp_loop (mem : Memory) (io : IOState) (mem_addr : Nat) :
    Except VmError (Memory × IOState) :=
  if _h : mem_addr < MEMORY_SIZE then
    match mem.read io mem_addr with
    | .error e => .error e
    | .ok (word, m1, io1) =>
      if word = 0 then .ok (m1, io1)
      else putsp_loop m1
        { io1 with output := io1.output ++ [word % 256, word / 256] }
        (mem_addr + 1)
  else .ok (mem, io)
termination_by MEMORY_SIZE - mem_addr
decreasing_by omega

/-- Rust `trap::putsp`. -/
def putsp (regs : Registers) (mem : Memory) (io : IOState) :
    Except VmError (Memory × IOState) :=
  putsp_loop mem io (regs.read 0)

/-- The bytes of the `trap::in` prompt `"Enter character: "`. -/
def prompt_bytes : List Nat := "Enter character: ".toList.map Char.toNat

/-- Rust `trap::in` (`r#in`): print the prompt, then read one byte into R0. -/
def trap_in (regs : Registers) (io : IOState) :
    Except VmError (Registers × IOState) :=
  let io := { io with output := io.output ++ prompt_bytes }
  match read_next_byte io with
  | .error e => .error e
  | .ok (b, io1) => .ok (regs.write 0 b, io1)

/-- The bytes of the `trap::halt` message `"HALT"`. -/
def halt_bytes : List Nat := "HALT".toList.map Char.toNat

/-- Rust `trap::halt`: print `"HALT"` and flush. -/
def halt (io : IOState) : IOState :=
  { io with output := io.output ++ halt_bytes }

/-- Rust `instructions::trap`: decode the trap vector
(`TrapCode::try_from(..).unwrap_or_else(panic)`), run the service, and
return whether the vm should halt together with the updated state. -/
def trap (instr : Nat) (regs : Registers) (mem : Memory) (io : IOState) :
    Except VmError (Bool × Registers × Memory × IOState) :=
  let trapvector := instr &&& 0xFF
  match TrapCode.try_from trapvector with
  | none => .error (.unsupportedTrap trapvector)
  | some .getc =>
    match getc regs io with
    | .error e => .error e
    | .ok (r1, io1) => .ok (false, r1, mem, io1)
  | some .out => .ok (false, regs, mem, out regs io)
  | some .puts =>
    match puts regs mem io with
    | .error e => .error e
    | .ok (m1, io1) => .ok (false, regs, m1, io1)
  | some .tIn =>
    match trap_in regs io with
    | .error e => .error e
    | .ok (r1, io1) => .ok (false, r1, mem, io1)
  | some .putsp =>
    match putsp regs mem io with
    | .error e => .error e
    | .ok (m1, io1) => .ok (false, regs, m1, io1)
  | some .halt => .ok (true, regs, mem, halt io)

end instructions

/-- Rust `opcode::Opcode` (declaration order as in the Rust enum). -/
inductive Opcode where
  | add : Opcode
  | br : Opcode
  | ld : Opcode
  | st : Opcode
  | jsr : Opcode
  | and : Opcode
  | ldr : Opcode
  | str : Opcode
  | rti : Opcode
  | not : Opcode
  | ldi : Opcode
  | sti : Opcode
  | jmp : Opcode
  | res : Opcode
  | lea : Opcode
  | trap : Opcode
deriving DecidableEq

/-- Rust `Opcode::try_from`. -/
def Opcode.try_from (value : Nat) : Option Opcode :=
  match value with
  | 0b0000 => some .br
  | 0b0001 => some .add
  | 0b0010 => some .ld
  | 0b0011 => some .st
  | 0b0100 => some .jsr
  | 0b0101 => some .and
  | 0b0110 => some .ldr
  | 0b0111 => some .str
  | 0b1000 => some .rti
  | 0b1001 => some .not
  | 0b1010 => some .ldi
  | 0b1011 => some .sti
  | 0b1100 => some .jmp
  | 0b1101 => some .res
  | 0b1110 => some .lea
  | 0b1111 => some .trap
  | _ => none

/-- Rust `vm::Vm`: register file, memory, running flag. -/
structure Vm where
  regs : Registers
  mem : Memory
  running : Bool

/-- Rust `Vm::new`. -/
def Vm.new : Vm := ⟨Registers.new, Memory.new, false⟩

/-- The dispatch `match` inside `Vm::main_loop` (source lines 58–81): given
the fetched instruction and the already-incremented registers, classify the
opcode (`Opcode::try_from(instr >> 12).unwrap()`) and run the matching
instruction semantics.  The returned `Bool` is `should_halt` (only ever
`true` for a halting TRAP). -/
def Vm.dispatch (instr : Nat) (regs : Registers) (mem : Memory)
    (io : IOState) : Except VmError (Bool × Registers × Memory × IOState) :=
  match Opcode.try_from (instr >>> 12) with
  | none => .error .unwrapPanic
  | some .br =>
    match instructions.br instr regs with
    | .error e => .error e
    | .ok r1 => .ok (false, r1, mem, io)
  | some .add =>
    match instructions.add instr regs with
    | .error e => .error e
    | .ok r1 => .ok (false, r1, mem, io)
  | some .ld =>
    match instructions.ld instr regs mem io with
    | .error e => .error e
    | .ok (r1, m1, io1) => .ok (false, r1, m1, io1)
  | some .st =>
    match instructions.st instr regs mem with
    | .error e => .error e
    | .ok m1 => .ok (false, regs, m1, io)
  | some .jsr =>
    match instructions.jsr instr regs with
    | .error e => .error e
    | .ok r1 => .ok (false, r1, mem, io)
  | some .and =>
    match instructions.and instr regs with
    | .error e => .error e
    | .ok r1 => .ok (false, r1, mem, io)
  | some .ldr =>
    match instructions.ldr instr regs mem io with
    | .error e => .error e
    | .ok (r1, m1, io1) => .ok (false, r1, m1, io1)
  | some .str =>
    match instructions.str instr regs mem with
    | .error e => .error e
    | .ok m1 => .ok (false, regs, m1, io)
  | some .rti => .error (.illegalOpcode 0b1000)
  | some .not =>
    match instructions.not instr regs with
    | .error e => .error e
    | .ok r1 => .ok (false, r1, mem, io)
  | some .ldi =>
    match instructions.ldi instr regs mem io with
    | .error e => .error e
    | .ok (r1, m1, io1) => .ok (false, r1, m1, io1)
  | some .sti =>
    match instructions.sti instr regs mem io with
    | .error e => .error e
    | .ok (m1, io1) => .ok (false, regs, m1, io1)
  | some .jmp =>
    match instructions.jmp instr regs with
    | .error e => .error e
    | .ok r1 => .ok (false, r1, mem, io)
  | some .res => .error (.illegalOpcode 0b1101)
  | some .lea =>
    match instructions.lea instr regs with
    | .error e => .error e
    | .ok r1 => .ok (false, r1, mem, io)
  | some .trap => instructions.trap instr regs mem io

/-- One iteration of the `while self.running` loop in `Vm::main_loop`:
fetch `Memory::read(pc)`, increment the pc (wrapping) *before* executing the
instruction body, dispatch, and clear `running` when a trap requested a
halt. -/
def Vm.step (vm : Vm) (io : IOState) : Except VmError (Vm × IOState) :=
  match vm.mem.read io vm.regs.pc with
  | .error e => .error e
  | .ok (instr, m1, io1) =>
    let regs1 : Registers := { vm.regs with pc := (vm.regs.pc + 1) % 65536 }
    match Vm.dispatch instr regs1 m1 io1 with
    | .error e => .error e
    | .ok (should_halt, r2, m2, io2) =>
      .ok ({ regs := r2, mem := m2,
             running := if should_halt then false else vm.running }, io2)

/-- One unit read from the program-image byte stream: either a byte or an
I/O failure reported by the underlying reader. -/
inductive ByteResult where
  | byte (b : Nat) : ByteResult
  | ioErr : ByteResult
deriving DecidableEq

/-- The two classes of `std::io` error relevant to `Vm::load_program`:
`ErrorKind::UnexpectedEof` versus everything else. -/
inductive IOErrorKind where
  | unexpectedEof : IOErrorKind
  | otherError : IOErrorKind
deriving DecidableEq

/-- Rust `reader.read_u16::<BigEndian>()`: reads two bytes (high first); running
out of bytes is `UnexpectedEof` (also when only one byte remains, per
`read_exact`), and an underlying I/O failure is reported as-is. -/
def read_u16_be (s : List ByteResult) :
    Except IOErrorKind (Nat × List ByteResult) :=
  match s with
  | .byte hi :: .byte lo :: rest => .ok (hi * 256 + lo, rest)
  | .ioErr :: _ => .error .otherError
  | .byte _ :: .ioErr :: _ => .error .otherError
  | [.byte _] => .error .unexpectedEof
  | [] => .error .unexpectedEof

/-- The `for address in origin..(memory::MEMORY_SIZE as u16)` loop of
`Vm::load_program`: read a big-endian word and store it at `address`
(`Memory::write` at an in-range `address < MEMORY_SIZE`, inlined as the raw
array update), `break` with success on `UnexpectedEof`, fail on any other
I/O error. -/
def Vm.load_loop (m : Memory) (address : Nat) (s : List ByteResult) :
    Except IOErrorKind Memory :=
  if _h : address < MEMORY_SIZE then
    match read_u16_be s with
    | .ok (instr, rest) =>
      Vm.load_loop ⟨fun i => if i = address then instr else m.mem i⟩
        (address + 1) rest
    | .error .unexpectedEof => .ok m
    | .error .otherError => .error .otherError
  else .ok m
termination_by MEMORY_SIZE - address
decreasing_by omega

/-- Rust `Vm::load_program`: read the big-endian origin word (failure of any kind
propagates via `?`), then run the copy loop. -/
def Vm.load_program (m : Memory) (s : List ByteResult) :
    Except IOErrorKind Memory :=
  match read_u16_be s with
  | .error e => .error e
  | .ok (origin, rest) => Vm.load_loop m origin rest

/-! ## Specification-side definitions

These render the wording of the spec (not the Rust code) and are compared with
the embedded code by the theorems below. -/

/-- The flag the spec demands after a value is written to a destination
register: Zero for 0, Negative when bit 15 is set, else Positive. -/
def flagFor (v : Nat) : CondFlag :=
  if v = 0 then .zero else if v.testBit 15 then .neg else .pos

/-- Register-file well-formedness: every stored value and the pc fit in a
`u16` (automatic in the Rust types, an explicit invariant in this model). -/
def Registers.WF (r : Registers) : Prop :=
  (∀ i, r.base_regs i < 65536) ∧ r.pc < 65536

/-- Memory well-formedness: every stored word fits in a `u16`. -/
def Memory.WF (m : Memory) : Prop := ∀ i, m.mem i < 65536

/-- Console well-formedness: stdin delivers bytes. -/
def IOState.WF (io : IOState) : Prop := ∀ b ∈ io.input, b < 256

/-- Big-endian byte encoding of a list of 16-bit words, for describing
well-formed program-image streams. -/
def encode_words : List Nat → List ByteResult
  | [] => []
  | w :: ws => .byte (w / 256) :: .byte (w % 256) :: encode_words ws

/-! ## Helper lemmas -/

theorem Registers.update_cond_flags_cond_eq (r : Registers) (v : Nat)
    (hv : v < 65536) : (r.update_cond_flags v).cond = flagFor v := by
  unfold Registers.update_cond_flags flagFor
  by_cases h0 : v = 0
  · simp [h0]
  · have h15 : v >>> 15 = v / 32768 := by
      rw [Nat.shiftRight_eq_div_pow]
    have ht : v.testBit 15 = decide (v / 32768 % 2 = 1) := by
      rw [Nat.testBit_to_div_mod]
    have hd : v / 32768 < 2 := by omega
    simp only [h0, if_false, h15, ht]
    by_cases h1 : v / 32768 = 1
    · simp [h1]
    · have hne : v / 32768 % 2 ≠ 1 := by omega
      simp [h1, hne]

theorem sign_extend_ok {x n : Nat} (h1 : 1 ≤ n) (h2 : n ≤ 15)
    (hx : x < 2 ^ n) :
    sign_extend x n =
      .ok (if x.testBit (n - 1) then x + (65536 - 2 ^ n) else x) := by
  have hn0 : ¬ (n = 0) := by omega
  have hsh : ¬ (16 ≤ n - 1) := by omega
  have hcond : ((x >>> (n - 1)) &&& 0x1 = 0x1) ↔ x.testBit (n - 1) = true := by
    rw [Nat.and_one_is_mod, Nat.shiftRight_eq_div_pow, Nat.testBit_to_div_mod]
    simp
  unfold sign_extend
  by_cases hb : x.testBit (n - 1)
  · have hc : (x >>> (n - 1)) &&& 0x1 = 0x1 := hcond.mpr hb
    have h16 : ¬ (16 ≤ n) := by omega
    rw [if_neg hn0, if_neg hsh, if_pos hc, if_neg h16, hb, if_pos rfl]
    congr 1
    have hpow : (2:Nat) ^ n ≤ 32768 := by
      calc (2:Nat) ^ n ≤ 2 ^ 15 := Nat.pow_le_pow_right (by norm_num) h2
      _ = 32768 := by norm_num
    have hpos : 0 < (2:Nat) ^ n := Nat.pos_pow_of_pos n (by norm_num)
    have hmask : (0xFFFF <<< n) % 65536 = 65536 - 2 ^ n := by
      rw [Nat.shiftLeft_eq]
      have hsplit : 65535 * 2 ^ n = 65536 * (2 ^ n - 1) + (65536 - 2 ^ n) := by
        omega
      rw [hsplit, Nat.mul_add_mod]
      exact Nat.mod_eq_of_lt (by omega)
    obtain ⟨k, hk⟩ : ∃ k, 2 ^ (16 - n) = k + 1 :=
      ⟨2 ^ (16 - n) - 1, by
        have : 0 < (2:Nat) ^ (16 - n) := Nat.pos_pow_of_pos _ (by norm_num)
        omega⟩
    have hprod : 2 ^ n * 2 ^ (16 - n) = 65536 := by
      rw [← pow_add]
      have hsum : n + (16 - n) = 16 := by omega
      rw [hsum]; norm_num
    have hM : 65536 - 2 ^ n = 2 ^ n * k := by
      rw [hk, Nat.mul_succ] at hprod
      omega
    rw [hmask, hM, Nat.lor_comm, ← Nat.mul_add_lt_is_or hx k, Nat.add_comm]
  · have hc : ¬ ((x >>> (n - 1)) &&& 0x1 = 0x1) := fun hcc => hb (hcond.mp hcc)
    have hbf : x.testBit (n - 1) = false := by simpa using hb
    rw [if_neg hn0, if_neg hsh, if_neg hc, hbf, if_neg (by simp)]

theorem sign_extend_total_lt {x n : Nat} (h1 : 1 ≤ n) (h2 : n ≤ 15)
    (hx : x < 2 ^ n) :
    ∃ y, sign_extend x n = .ok y ∧ y < 65536 := by
  rw [sign_extend_ok h1 h2 hx]
  refine ⟨_, rfl, ?_⟩
  have hpow : (2:Nat) ^ n ≤ 32768 := by
    calc (2:Nat) ^ n ≤ 2 ^ 15 := Nat.pow_le_pow_right (by norm_num) h2
    _ = 32768 := by norm_num
  by_cases hb : x.testBit (n - 1) <;> simp [hb] <;> omega

theorem sign_extend_mask_total (instr mask n : Nat) (h1 : 1 ≤ n)
    (h2 : n ≤ 15) (hm : mask < 2 ^ n) :
    ∃ y, sign_extend (instr &&& mask) n = .ok y ∧ y < 65536 :=
  sign_extend_total_lt h1 h2 (Nat.and_lt_two_pow instr hm)

/-! ## Claim C1 -/

/-- **C1.** The claim says Memory is a 65536-word array and `write` cannot
fail for any 16-bit address.  In the code `MEMORY_SIZE = u16::MAX as usize`
is 65535, so the backing array is one word short of the full 2^16 address
space: `write(0xFFFF, _)` indexes out of bounds and panics, while every
address below 65535 is written normally (shown here at 0xFFFE). -/
theorem c1_memory_size_off_by_one :
    MEMORY_SIZE = 65535 ∧
    Memory.write Memory.new 0xFFFF 1 = .error .indexOutOfBounds ∧
    Memory.write Memory.new 0xFFFE 1 =
      .ok ⟨fun i => if i = 0xFFFE then 1 else Memory.new.mem i⟩ :=
  ⟨rfl, rfl, rfl⟩

/-! ## Claim C2 -/

/-- **C2.** The claim says `sign_extend(v & mask(n), n)` is total and
correct for every `n` in `[1,16]`.  For `n ≤ 15` the code is correct (third
conjunct: the twos-complement reinterpretation, adding `2^16 - 2^n` exactly
when the sign bit of the field is set).  But at `n = 16` with the sign bit
set, the code evaluates `0xFFFF << 16` on a `u16`, a shift overflow
(debug-build panic), so the function is not total on the claimed domain:
`sign_extend(0x8000, 16)` fails instead of returning `0x8000` unchanged
(while `sign_extend(0x7FFF, 16)`, sign bit clear, never reaches the shift
and is returned unchanged). -/
theorem c2_sign_extend_shift_overflow :
    sign_extend 0x8000 16 = .error .arithmeticOverflow ∧
    sign_extend 0x7FFF 16 = .ok 0x7FFF ∧
    (∀ x n, 1 ≤ n → n ≤ 15 → x < 2 ^ n →
      sign_extend x n =
        .ok (if x.testBit (n - 1) then x + (65536 - 2 ^ n) else x)) :=
  ⟨rfl, rfl, fun _ _ h1 h2 hx => sign_extend_ok h1 h2 hx⟩

/-- Witness for the quantified conjunct of C2: `sign_extend 0x10 5 = 0xFFF0`. -/
theorem c2_witness : sign_extend 0x10 5 = .ok 0xFFF0 := by
  have h := c2_sign_extend_shift_overflow.2.2 0x10 5 (by norm_num) (by norm_num)
    (by norm_num)
  rw [h, if_pos (by decide)]
  norm_num

/-! ## Claim C10 -/

/-- **C10 counterexample.**  The claim quantifies over *every* address other
than `0xFE00`, but at address `0xFFFF` (not the keyboard status register)
`Memory::read` does not return a stored word: the index is out of bounds for
the 65535-entry array and the read panics. -/
theorem c10_counterexample :
    (0xFFFF : Nat) ≠ KBSR ∧
    Memory.read Memory.new ⟨[], []⟩ 0xFFFF = .error .indexOutOfBounds :=
  ⟨by decide, rfl⟩

/-- **C10 (amended).**  For every address that actually indexes the backing
array (`address < MEMORY_SIZE = 65535`) and is not the keyboard status
address, `Memory::read` consumes no input, changes nothing, and returns
exactly the stored word. -/
theorem c10_amended_read_pure (m : Memory) (io : IOState) (a : Nat)
    (h1 : a < MEMORY_SIZE) (h2 : a ≠ KBSR) :
    Memory.read m io a = .ok (m.mem a, m, io) := by
  unfold Memory.read
  rw [if_neg h2]
  exact if_pos h1

/-- Witness for the amended C10 at address `0x3000` (covers also the
keyboard data address via the theorem, applied at `0xFE02` below). -/
theorem c10_amended_witness :
    Memory.read Memory.new ⟨[9], []⟩ 0x3000 =
      .ok (Memory.new.mem 0x3000, Memory.new, ⟨[9], []⟩) ∧
    Memory.read Memory.new ⟨[9], []⟩ KBDR =
      .ok (Memory.new.mem KBDR, Memory.new, ⟨[9], []⟩) :=
  ⟨c10_amended_read_pure Memory.new ⟨[9], []⟩ 0x3000 (by decide) (by decide),
   c10_amended_read_pure Memory.new ⟨[9], []⟩ KBDR (by decide) (by decide)⟩

/-! ## Claim C6 -/

/-- **C6.**  Reading the keyboard status address first consumes one byte
`b` from stdin; if `b ≠ 0` (a byte is available — the code signals
no-byte with a zero byte) the status word becomes `0x8000` (bit 15 set) and
the data word at `0xFE02` receives the byte zero-extended, otherwise the
status word is cleared to 0; all other memory is untouched, and the value
returned is the updated status word itself. -/
theorem c6_kbsr_read_polls (m : Memory) (io : IOState) (b : Nat)
    (rest : List Nat) (h : io.input = b :: rest) :
    ∃ m1 io1, Memory.read m io KBSR = .ok (m1.mem KBSR, m1, io1) ∧
      io1.input = rest ∧ io1.output = io.output ∧
      (b ≠ 0 → m1.mem KBSR = 0x8000 ∧ m1.mem KBDR = b) ∧
      (b = 0 → m1.mem KBSR = 0) ∧
      (∀ a, a ≠ KBSR → a ≠ KBDR → m1.mem a = m.mem a) := by
  by_cases hb : b = 0
  · subst hb
    refine ⟨⟨fun i => if i = KBSR then 0 else m.mem i⟩, ⟨rest, io.output⟩,
      ?_, rfl, rfl, fun hbb => absurd rfl hbb, fun _ => by simp, ?_⟩
    · unfold Memory.read read_next_byte
      rw [if_pos rfl, h]
      simp only [if_neg (fun hq : (0:Nat) ≠ 0 => hq rfl)]
      exact if_pos (by decide)
    · intro a ha _
      simp [ha]
  · refine ⟨⟨fun i => if i = KBDR then b else if i = KBSR then 0x8000
        else m.mem i⟩, ⟨rest, io.output⟩,
      ?_, rfl, rfl, fun _ => ⟨by norm_num [KBSR, KBDR], by simp⟩,
      fun hbb => absurd hbb hb, ?_⟩
    · unfold Memory.read read_next_byte
      rw [if_pos rfl, h]
      simp only [if_pos hb]
      exact if_pos (by decide)
    · intro a ha1 ha2
      simp [ha1, ha2]

/-- Witness for C6: polling with pending byte 65 (ASCII `A`). -/
theorem c6_witness :
    ∃ m1 io1,
      Memory.read Memory.new ⟨[65], [7]⟩ KBSR = .ok (m1.mem KBSR, m1, io1) ∧
      io1.input = [] ∧ io1.output = [7] ∧
      (65 ≠ 0 → m1.mem KBSR = 0x8000 ∧ m1.mem KBDR = 65) ∧
      ((65:Nat) = 0 → m1.mem KBSR = 0) ∧
      (∀ a, a ≠ KBSR → a ≠ KBDR → m1.mem a = Memory.new.mem a) :=
  c6_kbsr_read_polls Memory.new ⟨[65], [7]⟩ 65 [] rfl

/-- Full inversion of a successful `Memory::read`. -/
theorem Memory.read_cases {m : Memory} {io : IOState} {a v : Nat}
    {m1 : Memory} {io1 : IOState}
    (h : Memory.read m io a = .ok (v, m1, io1)) :
    a < MEMORY_SIZE ∧ v = m1.mem a ∧
    ((a ≠ KBSR ∧ m1 = m ∧ io1 = io) ∨
     (a = KBSR ∧ ∃ b rest, io.input = b :: rest ∧ io1 = ⟨rest, io.output⟩ ∧
        ((b ≠ 0 ∧ m1 = ⟨fun i => if i = KBDR then b
            else if i = KBSR then 0x8000 else m.mem i⟩) ∨
         (b = 0 ∧ m1 = ⟨fun i => if i = KBSR then 0 else m.mem i⟩)))) := by
  unfold Memory.read at h
  by_cases hk : a = KBSR
  · subst hk
    rw [if_pos rfl] at h
    unfold read_next_byte at h
    cases hin : io.input with
    | nil => rw [hin] at h; simp at h
    | cons b rest =>
      rw [hin] at h
      by_cases hb0 : b = 0
      · subst hb0
        simp only [if_neg (fun hq : (0:Nat) ≠ 0 => hq rfl)] at h
        rw [if_pos (show KBSR < MEMORY_SIZE by decide)] at h
        simp only [Except.ok.injEq, Prod.mk.injEq] at h
        obtain ⟨hv, hm1, hio1⟩ := h
        subst hm1 hio1
        exact ⟨by decide, hv.symm,
          Or.inr ⟨rfl, 0, rest, rfl, rfl, Or.inr ⟨rfl, rfl⟩⟩⟩
      · simp only [if_pos hb0] at h
        rw [if_pos (show KBSR < MEMORY_SIZE by decide)] at h
        simp only [Except.ok.injEq, Prod.mk.injEq] at h
        obtain ⟨hv, hm1, hio1⟩ := h
        subst hm1 hio1
        exact ⟨by decide, hv.symm,
          Or.inr ⟨rfl, b, rest, rfl, rfl, Or.inl ⟨hb0, rfl⟩⟩⟩
  · by_cases hlt : a < MEMORY_SIZE
    · simp only [if_neg hk, if_pos hlt] at h
      simp only [Except.ok.injEq, Prod.mk.injEq] at h
      obtain ⟨hv, hm1, hio1⟩ := h
      subst hm1 hio1
      exact ⟨hlt, hv.symm, Or.inl ⟨hk, rfl, rfl⟩⟩
    · simp only [if_neg hk, if_neg hlt] at h
      simp at h

/-- A successful read of well-formed state yields a `u16` value and
preserves well-formedness. -/
theorem Memory.read_ok_wf {m : Memory} {io : IOState} {a v : Nat}
    {m1 : Memory} {io1 : IOState} (hm : m.WF) (hio : io.WF)
    (h : Memory.read m io a = .ok (v, m1, io1)) :
    v < 65536 ∧ m1.WF ∧ io1.WF := by
  obtain ⟨-, hv, hc⟩ := Memory.read_cases h
  have hm1 : m1.WF ∧ io1.WF := by
    rcases hc with ⟨-, rfl, rfl⟩ | ⟨-, b, rest, hin, rfl, hc2⟩
    · exact ⟨hm, hio⟩
    · have hb : b < 256 := hio b (hin ▸ List.mem_cons_self b rest)
      have hrest : ∀ x ∈ rest, x < 256 :=
        fun x hx => hio x (hin ▸ List.mem_cons_of_mem b hx)
      rcases hc2 with ⟨-, rfl⟩ | ⟨-, rfl⟩
      · refine ⟨fun i => ?_, fun x hx => hrest x hx⟩
        show (if i = KBDR then b else if i = KBSR then 0x8000
          else m.mem i) < 65536
        by_cases h1 : i = KBDR
        · rw [if_pos h1]; omega
        · rw [if_neg h1]
          by_cases h2 : i = KBSR
          · rw [if_pos h2]; norm_num
          · rw [if_neg h2]; exact hm i
      · refine ⟨fun i => ?_, fun x hx => hrest x hx⟩
        show (if i = KBSR then 0 else m.mem i) < 65536
        by_cases h2 : i = KBSR
        · rw [if_pos h2]; norm_num
        · rw [if_neg h2]; exact hm i
  exact ⟨hv ▸ hm1.1 a, hm1⟩

/-- Shape of a successful `instructions::add`: some `u16` value `v` is
written to DR and the flags are updated from it; `v` is the wrapping sum
selected by the mode bit. -/
theorem instructions.add_shape (instr : Nat) (regs : Registers) :
    ∃ v, v < 65536 ∧
      instructions.add instr regs =
        .ok ((regs.write ((instr >>> 9) &&& 0x7) v).update_cond_flags v) ∧
      (((instr >>> 5) &&& 0x1 = 1) →
        ∃ imm, sign_extend (instr &&& 0x1F) 5 = .ok imm ∧
          v = (regs.read ((instr >>> 6) &&& 0x7) + imm) % 65536) ∧
      (((instr >>> 5) &&& 0x1 = 0) →
        v = (regs.read ((instr >>> 6) &&& 0x7) +
             regs.read (instr &&& 0x7)) % 65536) := by
  by_cases hm : (instr >>> 5) &&& 0x1 = 1
  · obtain ⟨imm, hse, himm⟩ :=
      sign_extend_mask_total instr 0x1F 5 (by norm_num) (by norm_num)
        (by norm_num)
    refine ⟨(regs.read ((instr >>> 6) &&& 0x7) + imm) % 65536,
      Nat.mod_lt _ (by norm_num), ?_, fun _ => ⟨imm, hse, rfl⟩,
      fun h0 => absurd (hm.symm.trans h0) (by norm_num)⟩
    simp only [instructions.add, if_pos hm, hse]
  · have hm0 : (instr >>> 5) &&& 0x1 = 0 := by
      have := Nat.and_le_right (n := instr >>> 5) (m := 0x1)
      omega
    refine ⟨(regs.read ((instr >>> 6) &&& 0x7) +
        regs.read (instr &&& 0x7)) % 65536,
      Nat.mod_lt _ (by norm_num), ?_, fun h1 => absurd h1 hm, fun _ => rfl⟩
    simp only [instructions.add, if_neg hm]

/-! ## Claim C5 -/

/-- **C5.**  All `ADD` arithmetic is wrapping modulo 2^16 and never faults:
the instruction always succeeds, the value written is the explicit
`(SR1 + operand) % 65536` in both modes, and in particular
`ADD R0,R0,#1` (encoding `0x1021`) with `R0 = 0xFFFF` wraps to `R0 = 0`
with condition flag Zero. -/
theorem c5_add_wraparound :
    (∀ instr regs, ∃ r1, instructions.add instr regs = .ok r1) ∧
    (∀ instr regs, (instr >>> 5) &&& 0x1 = 1 →
      ∃ imm, sign_extend (instr &&& 0x1F) 5 = .ok imm ∧
        instructions.add instr regs =
          .ok (Registers.update_cond_flags
                (regs.write ((instr >>> 9) &&& 0x7)
                  ((regs.read ((instr >>> 6) &&& 0x7) + imm) % 65536))
                ((regs.read ((instr >>> 6) &&& 0x7) + imm) % 65536))) ∧
    (∀ instr regs, (instr >>> 5) &&& 0x1 = 0 →
      instructions.add instr regs =
        .ok (Registers.update_cond_flags
              (regs.write ((instr >>> 9) &&& 0x7)
                ((regs.read ((instr >>> 6) &&& 0x7) +
                  regs.read (instr &&& 0x7)) % 65536))
              ((regs.read ((instr >>> 6) &&& 0x7) +
                regs.read (instr &&& 0x7)) % 65536))) ∧
    (∃ r1, instructions.add 0x1021
        ⟨fun i => if i = 0 then 0xFFFF else 0, 0x3000, .pos⟩ = .ok r1 ∧
      r1.base_regs 0 = 0 ∧ r1.cond = .zero) := by
  refine ⟨?_, ?_, ?_, ?_⟩
  · intro instr regs
    obtain ⟨v, -, heq, -, -⟩ := instructions.add_shape instr regs
    exact ⟨_, heq⟩
  · intro instr regs hmode
    obtain ⟨v, -, heq, hi, -⟩ := instructions.add_shape instr regs
    obtain ⟨imm, hse, rfl⟩ := hi hmode
    exact ⟨imm, hse, heq⟩
  · intro instr regs hmode
    obtain ⟨v, -, heq, -, hr⟩ := instructions.add_shape instr regs
    rw [hr hmode] at heq
    exact heq
  · exact ⟨_, rfl, rfl, rfl⟩

/-- Witness for the quantified conjuncts of C5, at the `ADD R0,R0,#1` encoding
`0x1021` and at the register-register encoding `0x1001`. -/
theorem c5_witness :
    (∃ r1, instructions.add 0x1021 Registers.new = .ok r1) ∧
    (∃ imm, sign_extend (0x1021 &&& 0x1F) 5 = .ok imm ∧
      instructions.add 0x1021 Registers.new =
        .ok (Registers.update_cond_flags
              (Registers.new.write ((0x1021 >>> 9) &&& 0x7)
                ((Registers.new.read ((0x1021 >>> 6) &&& 0x7) + imm) % 65536))
              ((Registers.new.read ((0x1021 >>> 6) &&& 0x7) + imm)
                % 65536))) ∧
    (instructions.add 0x1001 Registers.new =
      .ok (Registers.update_cond_flags
            (Registers.new.write ((0x1001 >>> 9) &&& 0x7)
              ((Registers.new.read ((0x1001 >>> 6) &&& 0x7) +
                Registers.new.read (0x1001 &&& 0x7)) % 65536))
            ((Registers.new.read ((0x1001 >>> 6) &&& 0x7) +
              Registers.new.read (0x1001 &&& 0x7)) % 65536))) :=
  ⟨c5_add_wraparound.1 0x1021 Registers.new,
   c5_add_wraparound.2.1 0x1021 Registers.new (by decide),
   c5_add_wraparound.2.2.1 0x1001 Registers.new (by decide)⟩

/-- After `write dr v; update_cond_flags v`, the flag matches the sign of
the value stored at DR. -/
theorem writeflag_cond (regs : Registers) (dr v : Nat) (hv : v < 65536) :
    ((regs.write dr v).update_cond_flags v).cond =
      flagFor (((regs.write dr v).update_cond_flags v).base_regs dr) := by
  have hb : ((regs.write dr v).update_cond_flags v).base_regs dr = v := by
    simp [Registers.write, Registers.update_cond_flags]
  rw [hb]
  exact Registers.update_cond_flags_cond_eq _ v hv

/-- Shape of `instructions::and`: a `u16` value is written to DR and the
flags updated from it. -/
theorem instructions.and_shape (instr : Nat) (regs : Registers)
    (hr : ∀ i, regs.base_regs i < 65536) :
    ∃ v, v < 65536 ∧ instructions.and instr regs =
      .ok ((regs.write ((instr >>> 9) &&& 0x7) v).update_cond_flags v) := by
  by_cases hm : (instr >>> 5) &&& 0x1 = 1
  · obtain ⟨imm, hse, himm⟩ :=
      sign_extend_mask_total instr 0x1F 5 (by norm_num) (by norm_num)
        (by norm_num)
    refine ⟨regs.read ((instr >>> 6) &&& 0x7) &&& imm,
      Nat.and_lt_two_pow _ (show imm < 2 ^ 16 from himm), ?_⟩
    simp only [instructions.and, if_pos hm, hse]
  · refine ⟨regs.read ((instr >>> 6) &&& 0x7) &&& regs.read (instr &&& 0x7),
      Nat.and_lt_two_pow _ (show regs.read (instr &&& 0x7) < 2 ^ 16 from
        hr (instr &&& 0x7)), ?_⟩
    simp only [instructions.and, if_neg hm]

/-- Shape of `instructions::not`. -/
theorem instructions.not_shape (instr : Nat) (regs : Registers)
    (hr : ∀ i, regs.base_regs i < 65536) :
    ∃ v, v < 65536 ∧ instructions.not instr regs =
      .ok ((regs.write ((instr >>> 9) &&& 0x7) v).update_cond_flags v) :=
  ⟨regs.read ((instr >>> 6) &&& 0x7) ^^^ 0xFFFF,
   Nat.xor_lt_two_pow
     (show regs.read ((instr >>> 6) &&& 0x7) < 2 ^ 16 from hr _)
     (by norm_num), rfl⟩

/-- Shape of `instructions::lea`. -/
theorem instructions.lea_shape (instr : Nat) (regs : Registers) :
    ∃ v, v < 65536 ∧ instructions.lea instr regs =
      .ok ((regs.write ((instr >>> 9) &&& 0x7) v).update_cond_flags v) := by
  obtain ⟨off, hse, -⟩ :=
    sign_extend_mask_total instr 0x1FF 9 (by norm_num) (by norm_num)
      (by norm_num)
  refine ⟨(regs.pc + off) % 65536, Nat.mod_lt _ (by norm_num), ?_⟩
  simp only [instructions.lea, hse]

/-- Shape of a successful `instructions::ld`. -/
theorem instructions.ld_shape {instr : Nat} {regs : Registers} {mem : Memory}
    {io : IOState} {r1 : Registers} {m1 : Memory} {io1 : IOState}
    (hm : mem.WF) (hio : io.WF)
    (h : instructions.ld instr regs mem io = .ok (r1, m1, io1)) :
    ∃ v, v < 65536 ∧
      r1 = (regs.write ((instr >>> 9) &&& 0x7) v).update_cond_flags v := by
  obtain ⟨off, hse, -⟩ :=
    sign_extend_mask_total instr 0x1FF 9 (by norm_num) (by norm_num)
      (by norm_num)
  simp only [instructions.ld, hse] at h
  rcases hread : mem.read io ((regs.pc + off) % 65536) with e | ⟨v, m2, io2⟩
  · simp only [hread] at h
    exact Except.noConfusion h
  · simp only [hread, Except.ok.injEq, Prod.mk.injEq] at h
    obtain ⟨h1, -, -⟩ := h
    obtain ⟨hv, -, -⟩ := Memory.read_ok_wf hm hio hread
    exact ⟨v, hv, h1.symm⟩

/-- Shape of a successful `instructions::ldr`. -/
theorem instructions.ldr_shape {instr : Nat} {regs : Registers} {mem : Memory}
    {io : IOState} {r1 : Registers} {m1 : Memory} {io1 : IOState}
    (hm : mem.WF) (hio : io.WF)
    (h : instructions.ldr instr regs mem io = .ok (r1, m1, io1)) :
    ∃ v, v < 65536 ∧
      r1 = (regs.write ((instr >>> 9) &&& 0x7) v).update_cond_flags v := by
  obtain ⟨off, hse, -⟩ :=
    sign_extend_mask_total instr 0x3F 6 (by norm_num) (by norm_num)
      (by norm_num)
  simp only [instructions.ldr, hse] at h
  rcases hread : mem.read io ((regs.read ((instr >>> 6) &&& 0x7) + off)
      % 65536) with e | ⟨v, m2, io2⟩
  · simp only [hread] at h
    exact Except.noConfusion h
  · simp only [hread, Except.ok.injEq, Prod.mk.injEq] at h
    obtain ⟨h1, -, -⟩ := h
    obtain ⟨hv, -, -⟩ := Memory.read_ok_wf hm hio hread
    exact ⟨v, hv, h1.symm⟩

/-- Shape of a successful `instructions::ldi`. -/
theorem instructions.ldi_shape {instr : Nat} {regs : Registers} {mem : Memory}
    {io : IOState} {r1 : Registers} {m1 : Memory} {io1 : IOState}
    (hm : mem.WF) (hio : io.WF)
    (h : instructions.ldi instr regs mem io = .ok (r1, m1, io1)) :
    ∃ v, v < 65536 ∧
      r1 = (regs.write ((instr >>> 9) &&& 0x7) v).update_cond_flags v := by
  obtain ⟨off, hse, -⟩ :=
    sign_extend_mask_total instr 0x1FF 9 (by norm_num) (by norm_num)
      (by norm_num)
  simp only [instructions.ldi, hse] at h
  rcases hr1 : mem.read io ((regs.pc + off) % 65536) with e | ⟨addr, m2, io2⟩
  · simp only [hr1] at h
    exact Except.noConfusion h
  · simp only [hr1] at h
    obtain ⟨-, hm2, hio2⟩ := Memory.read_ok_wf hm hio hr1
    rcases hr2 : m2.read io2 addr with e | ⟨v, m3, io3⟩
    · simp only [hr2] at h
      exact Except.noConfusion h
    · simp only [hr2, Except.ok.injEq, Prod.mk.injEq] at h
      obtain ⟨h1, -, -⟩ := h
      obtain ⟨hv, -, -⟩ := Memory.read_ok_wf hm2 hio2 hr2
      exact ⟨v, hv, h1.symm⟩

/-- Rust `instructions::br` never touches the condition flag. -/
theorem instructions.br_cond {instr : Nat} {regs r1 : Registers}
    (h : instructions.br instr regs = .ok r1) : r1.cond = regs.cond := by
  simp only [instructions.br] at h
  by_cases hc : (instr >>> 9) &&& regs.cond.toNat > 0
  · rw [if_pos hc] at h
    rcases hse : sign_extend (instr &&& 0x1FF) 9 with e | off
    · simp only [hse] at h
      exact Except.noConfusion h
    · simp only [hse, Except.ok.injEq] at h
      subst h; rfl
  · rw [if_neg hc] at h
    simp only [Except.ok.injEq] at h
    subst h; rfl

/-- Rust `instructions::jsr` never touches the condition flag. -/
theorem instructions.jsr_cond {instr : Nat} {regs r1 : Registers}
    (h : instructions.jsr instr regs = .ok r1) : r1.cond = regs.cond := by
  simp only [instructions.jsr] at h
  by_cases hf : (instr >>> 11) &&& 0x1 = 1
  · rw [if_pos hf] at h
    rcases hse : sign_extend (instr &&& 0x7FF) 11 with e | off
    · simp only [hse] at h
      exact Except.noConfusion h
    · simp only [hse, Except.ok.injEq] at h
      subst h; rfl
  · rw [if_neg hf] at h
    simp only [Except.ok.injEq] at h
    subst h; rfl

/-- Rust `instructions::jmp` never touches the condition flag. -/
theorem instructions.jmp_cond {instr : Nat} {regs r1 : Registers}
    (h : instructions.jmp instr regs = .ok r1) : r1.cond = regs.cond := by
  simp only [instructions.jmp, Except.ok.injEq] at h
  subst h; rfl

theorem Opcode.try_from_0 : Opcode.try_from 0 = some .br := rfl
theorem Opcode.try_from_1 : Opcode.try_from 1 = some .add := rfl
theorem Opcode.try_from_2 : Opcode.try_from 2 = some .ld := rfl
theorem Opcode.try_from_3 : Opcode.try_from 3 = some .st := rfl
theorem Opcode.try_from_4 : Opcode.try_from 4 = some .jsr := rfl
theorem Opcode.try_from_5 : Opcode.try_from 5 = some .and := rfl
theorem Opcode.try_from_6 : Opcode.try_from 6 = some .ldr := rfl
theorem Opcode.try_from_7 : Opcode.try_from 7 = some .str := rfl
theorem Opcode.try_from_8 : Opcode.try_from 8 = some .rti := rfl
theorem Opcode.try_from_9 : Opcode.try_from 9 = some .not := rfl
theorem Opcode.try_from_10 : Opcode.try_from 10 = some .ldi := rfl
theorem Opcode.try_from_11 : Opcode.try_from 11 = some .sti := rfl
theorem Opcode.try_from_12 : Opcode.try_from 12 = some .jmp := rfl
theorem Opcode.try_from_13 : Opcode.try_from 13 = some .res := rfl
theorem Opcode.try_from_14 : Opcode.try_from 14 = some .lea := rfl
theorem Opcode.try_from_15 : Opcode.try_from 15 = some .trap := rfl

/-- The halting path of `instructions::trap`: vector 0x25 emits `HALT`,
returns `true`, and passes registers and memory through untouched. -/
theorem instructions.trap_halt_eq (instr : Nat) (regs : Registers)
    (mem : Memory) (io : IOState) (hv : instr &&& 0xFF = 0x25) :
    instructions.trap instr regs mem io =
      .ok (true, regs, mem, instructions.halt io) := by
  simp only [instructions.trap, hv]
  rfl

/-- Unsupported trap vectors decode to nothing. -/
theorem TrapCode.try_from_eq_none {v : Nat}
    (h : ¬ (0x20 ≤ v ∧ v ≤ 0x25)) : instructions.TrapCode.try_from v = none := by
  unfold instructions.TrapCode.try_from
  split
  all_goals first | rfl | omega

/-! ## Claim C4 -/

/-- **C4.**  The condition-flag state is a three-valued discriminated type;
after every flag-updating instruction dispatched by the main loop (ADD, LD,
AND, LDR, NOT, LDI, LEA — opcodes 1, 2, 5, 6, 9, 10, 14), the flag equals
`flagFor` of the value just written to the register named by the DR field (Zero for 0,
Negative when bit 15 is set, else Positive); and every dispatched
instruction that does not write a destination register (BR, ST, JSR, STR,
STI, JMP — opcodes 0, 3, 4, 7, 11, 12) leaves the flag unchanged. -/
theorem c4_condition_flag_invariant :
    (∀ f : CondFlag, f = .neg ∨ f = .zero ∨ f = .pos) ∧
    (∀ instr (regs : Registers) (mem : Memory) (io : IOState) sh r2 m2 io2,
      Registers.WF regs → Memory.WF mem → IOState.WF io →
      Vm.dispatch instr regs mem io = .ok (sh, r2, m2, io2) →
      ((instr >>> 12 = 1 ∨ instr >>> 12 = 2 ∨ instr >>> 12 = 5 ∨
        instr >>> 12 = 6 ∨ instr >>> 12 = 9 ∨ instr >>> 12 = 10 ∨
        instr >>> 12 = 14) →
        r2.cond = flagFor (r2.base_regs ((instr >>> 9) &&& 0x7))) ∧
      ((instr >>> 12 = 0 ∨ instr >>> 12 = 3 ∨ instr >>> 12 = 4 ∨
        instr >>> 12 = 7 ∨ instr >>> 12 = 11 ∨ instr >>> 12 = 12) →
        r2.cond = regs.cond)) := by
  refine ⟨?_, ?_⟩
  · intro f
    cases f
    · exact Or.inr (Or.inr rfl)
    · exact Or.inr (Or.inl rfl)
    · exact Or.inl rfl
  · intro instr regs mem io sh r2 m2 io2 hr hm hio hd
    refine ⟨?_, ?_⟩
    · intro hset
      rcases hset with h12 | h12 | h12 | h12 | h12 | h12 | h12
      · -- ADD
        simp only [Vm.dispatch, h12, Opcode.try_from_1] at hd
        obtain ⟨v, hv, heq, -, -⟩ := instructions.add_shape instr regs
        simp only [heq, Except.ok.injEq, Prod.mk.injEq] at hd
        obtain ⟨-, hr2, -, -⟩ := hd
        rw [← hr2]
        exact writeflag_cond regs _ v hv
      · -- LD
        simp only [Vm.dispatch, h12, Opcode.try_from_2] at hd
        rcases hld : instructions.ld instr regs mem io with e | ⟨r1, m1x, io1x⟩
        · simp only [hld] at hd; exact Except.noConfusion hd
        · simp only [hld, Except.ok.injEq, Prod.mk.injEq] at hd
          obtain ⟨-, hr2, -, -⟩ := hd
          obtain ⟨v, hv, hshape⟩ := instructions.ld_shape hm hio hld
          rw [← hr2, hshape]
          exact writeflag_cond regs _ v hv
      · -- AND
        simp only [Vm.dispatch, h12, Opcode.try_from_5] at hd
        obtain ⟨v, hv, heq⟩ := instructions.and_shape instr regs hr.1
        simp only [heq, Except.ok.injEq, Prod.mk.injEq] at hd
        obtain ⟨-, hr2, -, -⟩ := hd
        rw [← hr2]
        exact writeflag_cond regs _ v hv
      · -- LDR
        simp only [Vm.dispatch, h12, Opcode.try_from_6] at hd
        rcases hld : instructions.ldr instr regs mem io with e | ⟨r1, m1x, io1x⟩
        · simp only [hld] at hd; exact Except.noConfusion hd
        · simp only [hld, Except.ok.injEq, Prod.mk.injEq] at hd
          obtain ⟨-, hr2, -, -⟩ := hd
          obtain ⟨v, hv, hshape⟩ := instructions.ldr_shape hm hio hld
          rw [← hr2, hshape]
          exact writeflag_cond regs _ v hv
      · -- NOT
        simp only [Vm.dispatch, h12, Opcode.try_from_9] at hd
        obtain ⟨v, hv, heq⟩ := instructions.not_shape instr regs hr.1
        simp only [heq, Except.ok.injEq, Prod.mk.injEq] at hd
        obtain ⟨-, hr2, -, -⟩ := hd
        rw [← hr2]
        exact writeflag_cond regs _ v hv
      · -- LDI
        simp only [Vm.dispatch, h12, Opcode.try_from_10] at hd
        rcases hld : instructions.ldi instr regs mem io with e | ⟨r1, m1x, io1x⟩
        · simp only [hld] at hd; exact Except.noConfusion hd
        · simp only [hld, Except.ok.injEq, Prod.mk.injEq] at hd
          obtain ⟨-, hr2, -, -⟩ := hd
          obtain ⟨v, hv, hshape⟩ := instructions.ldi_shape hm hio hld
          rw [← hr2, hshape]
          exact writeflag_cond regs _ v hv
      · -- LEA
        simp only [Vm.dispatch, h12, Opcode.try_from_14] at hd
        obtain ⟨v, hv, heq⟩ := instructions.lea_shape instr regs
        simp only [heq, Except.ok.injEq, Prod.mk.injEq] at hd
        obtain ⟨-, hr2, -, -⟩ := hd
        rw [← hr2]
        exact writeflag_cond regs _ v hv
    · intro hset
      rcases hset with h12 | h12 | h12 | h12 | h12 | h12
      · -- BR
        simp only [Vm.dispatch, h12, Opcode.try_from_0] at hd
        rcases hbr : instructions.br instr regs with e | r1
        · simp only [hbr] at hd; exact Except.noConfusion hd
        · simp only [hbr, Except.ok.injEq, Prod.mk.injEq] at hd
          obtain ⟨-, hr2, -, -⟩ := hd
          rw [← hr2]
          exact instructions.br_cond hbr
      · -- ST
        simp only [Vm.dispatch, h12, Opcode.try_from_3] at hd
        rcases hst : instructions.st instr regs mem with e | m1x
        · simp only [hst] at hd; exact Except.noConfusion hd
        · simp only [hst, Except.ok.injEq, Prod.mk.injEq] at hd
          obtain ⟨-, hr2, -, -⟩ := hd
          rw [← hr2]
      · -- JSR
        simp only [Vm.dispatch, h12, Opcode.try_from_4] at hd
        rcases hj : instructions.jsr instr regs with e | r1
        · simp only [hj] at hd; exact Except.noConfusion hd
        · simp only [hj, Except.ok.injEq, Prod.mk.injEq] at hd
          obtain ⟨-, hr2, -, -⟩ := hd
          rw [← hr2]
          exact instructions.jsr_cond hj
      · -- STR
        simp only [Vm.dispatch, h12, Opcode.try_from_7] at hd
        rcases hst : instructions.str instr regs mem with e | m1x
        · simp only [hst] at hd; exact Except.noConfusion hd
        · simp only [hst, Except.ok.injEq, Prod.mk.injEq] at hd
          obtain ⟨-, hr2, -, -⟩ := hd
          rw [← hr2]
      · -- STI
        simp only [Vm.dispatch, h12, Opcode.try_from_11] at hd
        rcases hst : instructions.sti instr regs mem io with e | ⟨m1x, io1x⟩
        · simp only [hst] at hd; exact Except.noConfusion hd
        · simp only [hst, Except.ok.injEq, Prod.mk.injEq] at hd
          obtain ⟨-, hr2, -, -⟩ := hd
          rw [← hr2]
      · -- JMP
        simp only [Vm.dispatch, h12, Opcode.try_from_12] at hd
        rcases hj : instructions.jmp instr regs with e | r1
        · simp only [hj] at hd; exact Except.noConfusion hd
        · simp only [hj, Except.ok.injEq, Prod.mk.injEq] at hd
          obtain ⟨-, hr2, -, -⟩ := hd
          rw [← hr2]
          exact instructions.jmp_cond hj

/-- Witness for C4 at the `ADD R0,R0,#1` instruction `0x1021` dispatched on
the fresh state. -/
theorem c4_witness :
    ((Registers.new.write 0 1).update_cond_flags 1).cond =
      flagFor (((Registers.new.write 0 1).update_cond_flags 1).base_regs
        ((0x1021 >>> 9) &&& 0x7)) :=
  ((c4_condition_flag_invariant.2 0x1021 Registers.new Memory.new ⟨[], []⟩
      false ((Registers.new.write 0 1).update_cond_flags 1) Memory.new
      ⟨[], []⟩
      ⟨fun i => by norm_num [Registers.new], by
        norm_num [Registers.new, PC_START]⟩
      (fun i => by norm_num [Memory.new])
      (fun b hb => absurd hb (List.not_mem_nil b))
      rfl).1 (Or.inl rfl))

/-! ## Claim C3 -/

/-- **C3.**  One loop iteration fetches `Memory[pc]`, increments the pc
(wrapping) and only then runs the instruction body on the incremented
register file, so every PC-relative computation sees the address of the next
instruction; in particular, executing JSR with PCoffset11 = +5 (encoding
`0x4805`) fetched at 0x3000 saves R7 = 0x3001 and sets PC = 0x3006. -/
theorem c3_pc_incremented_before_body :
    (∀ (vm : Vm) (io : IOState) (instr : Nat) (m1 : Memory) (io1 : IOState),
      vm.mem.read io vm.regs.pc = .ok (instr, m1, io1) →
      Vm.step vm io =
        match Vm.dispatch instr
            { vm.regs with pc := (vm.regs.pc + 1) % 65536 } m1 io1 with
        | .error e => .error e
        | .ok (should_halt, r2, m2, io2) =>
          .ok ({ regs := r2, mem := m2,
                 running := if should_halt then false else vm.running },
            io2)) ∧
    (∃ vm1 io1, Vm.step
        ⟨⟨fun _ => 0, 0x3000, .zero⟩,
         ⟨fun i => if i = 0x3000 then 0x4805 else 0⟩, true⟩ ⟨[], []⟩ =
          .ok (vm1, io1) ∧
      vm1.regs.base_regs 7 = 0x3001 ∧ vm1.regs.pc = 0x3006) := by
  refine ⟨?_, ?_⟩
  · intro vm io instr m1 io1 hfetch
    simp only [Vm.step, hfetch]
  · exact ⟨_, _, rfl, rfl, rfl⟩

/-- Witness for the quantified conjunct of C3: stepping the fresh state (the
word at 0x3000 is 0, a BR that falls through). -/
theorem c3_witness :
    Vm.step ⟨Registers.new, Memory.new, true⟩ ⟨[], []⟩ =
      match Vm.dispatch 0
          { Registers.new with pc := (Registers.new.pc + 1) % 65536 }
          Memory.new ⟨[], []⟩ with
      | .error e => .error e
      | .ok (should_halt, r2, m2, io2) =>
        .ok ({ regs := r2, mem := m2,
               running := if should_halt then false else true }, io2) :=
  c3_pc_incremented_before_body.1 ⟨Registers.new, Memory.new, true⟩ ⟨[], []⟩
    0 Memory.new ⟨[], []⟩ rfl

/-! ## Claim C8 -/

/-- **C8.**  A TRAP with vector 0x25 (HALT) makes `instructions::trap`
report `should_halt = true` while returning the registers and memory
*unchanged* (the same values), only appending the halt indication to
stdout; the main loop then clears the running flag.  At the step level the
resulting machine has `running = false`, the same base registers and
condition flag, and the post-fetch memory. -/
theorem c8_trap_halt :
    (∀ instr (regs : Registers) (mem : Memory) (io : IOState),
      instr &&& 0xFF = 0x25 →
      instructions.trap instr regs mem io =
        .ok (true, regs, mem, instructions.halt io) ∧
      (instructions.halt io).input = io.input) ∧
    (∀ (vm : Vm) (io : IOState) (instr : Nat) (m1 : Memory) (io1 : IOState),
      vm.mem.read io vm.regs.pc = .ok (instr, m1, io1) →
      instr >>> 12 = 15 → instr &&& 0xFF = 0x25 →
      Vm.step vm io = .ok
        (⟨{ vm.regs with pc := (vm.regs.pc + 1) % 65536 }, m1, false⟩,
         instructions.halt io1)) := by
  refine ⟨?_, ?_⟩
  · intro instr regs mem io hv
    exact ⟨instructions.trap_halt_eq instr regs mem io hv, rfl⟩
  · intro vm io instr m1 io1 hfetch h12 hv
    simp only [Vm.step, hfetch]
    have hdp : Vm.dispatch instr
        { vm.regs with pc := (vm.regs.pc + 1) % 65536 } m1 io1 =
        .ok (true, { vm.regs with pc := (vm.regs.pc + 1) % 65536 }, m1,
          instructions.halt io1) := by
      simp only [Vm.dispatch, h12, Opcode.try_from_15]
      exact instructions.trap_halt_eq _ _ _ _ hv
    simp only [hdp]
    norm_num

/-- Witness for C8: stepping a machine whose word at 0x3000 is `0xF025`
(TRAP HALT). -/
theorem c8_witness :
    Vm.step ⟨⟨fun _ => 0, 0x3000, .zero⟩,
        ⟨fun i => if i = 0x3000 then 0xF025 else 0⟩, true⟩ ⟨[], []⟩ =
      .ok (⟨⟨fun _ => 0, 0x3001, .zero⟩,
            ⟨fun i => if i = 0x3000 then 0xF025 else 0⟩, false⟩,
        instructions.halt ⟨[], []⟩) :=
  c8_trap_halt.2 ⟨⟨fun _ => 0, 0x3000, .zero⟩,
      ⟨fun i => if i = 0x3000 then 0xF025 else 0⟩, true⟩ ⟨[], []⟩ 0xF025
    ⟨fun i => if i = 0x3000 then 0xF025 else 0⟩ ⟨[], []⟩ rfl rfl rfl

/-! ## Claim C9 -/

/-- **C9.**  Dispatching opcode 0b1000 (RTI) or 0b1101 (reserved) is the
fatal illegal-opcode panic; a TRAP whose 8-bit vector is outside 0x20–0x25
is the fatal unsupported-trap panic; and each of the other 13 opcode values
dispatches to its defined instruction semantics (the exact handler
equations below). -/
theorem c9_illegal_opcodes_and_traps (instr : Nat) (regs : Registers)
    (mem : Memory) (io : IOState) :
    (instr >>> 12 = 8 →
      Vm.dispatch instr regs mem io = .error (.illegalOpcode 8)) ∧
    (instr >>> 12 = 13 →
      Vm.dispatch instr regs mem io = .error (.illegalOpcode 13)) ∧
    (¬ (0x20 ≤ instr &&& 0xFF ∧ instr &&& 0xFF ≤ 0x25) →
      instructions.trap instr regs mem io =
        .error (.unsupportedTrap (instr &&& 0xFF))) ∧
    (instr >>> 12 = 0 → Vm.dispatch instr regs mem io =
      (instructions.br instr regs).map (fun r1 => (false, r1, mem, io))) ∧
    (instr >>> 12 = 1 → Vm.dispatch instr regs mem io =
      (instructions.add instr regs).map (fun r1 => (false, r1, mem, io))) ∧
    (instr >>> 12 = 2 → Vm.dispatch instr regs mem io =
      (instructions.ld instr regs mem io).map
        (fun x => (false, x.1, x.2.1, x.2.2))) ∧
    (instr >>> 12 = 3 → Vm.dispatch instr regs mem io =
      (instructions.st instr regs mem).map
        (fun m1 => (false, regs, m1, io))) ∧
    (instr >>> 12 = 4 → Vm.dispatch instr regs mem io =
      (instructions.jsr instr regs).map (fun r1 => (false, r1, mem, io))) ∧
    (instr >>> 12 = 5 → Vm.dispatch instr regs mem io =
      (instructions.and instr regs).map (fun r1 => (false, r1, mem, io))) ∧
    (instr >>> 12 = 6 → Vm.dispatch instr regs mem io =
      (instructions.ldr instr regs mem io).map
        (fun x => (false, x.1, x.2.1, x.2.2))) ∧
    (instr >>> 12 = 7 → Vm.dispatch instr regs mem io =
      (instructions.str instr regs mem).map
        (fun m1 => (false, regs, m1, io))) ∧
    (instr >>> 12 = 9 → Vm.dispatch instr regs mem io =
      (instructions.not instr regs).map (fun r1 => (false, r1, mem, io))) ∧
    (instr >>> 12 = 10 → Vm.dispatch instr regs mem io =
      (instructions.ldi instr regs mem io).map
        (fun x => (false, x.1, x.2.1, x.2.2))) ∧
    (instr >>> 12 = 11 → Vm.dispatch instr regs mem io =
      (instructions.sti instr regs mem io).map
        (fun x => (false, regs, x.1, x.2))) ∧
    (instr >>> 12 = 12 → Vm.dispatch instr regs mem io =
      (instructions.jmp instr regs).map (fun r1 => (false, r1, mem, io))) ∧
    (instr >>> 12 = 14 → Vm.dispatch instr regs mem io =
      (instructions.lea instr regs).map (fun r1 => (false, r1, mem, io))) ∧
    (instr >>> 12 = 15 → Vm.dispatch instr regs mem io =
      instructions.trap instr regs mem io) := by
  refine ⟨?_, ?_, ?_, ?_, ?_, ?_, ?_, ?_, ?_, ?_, ?_, ?_, ?_, ?_, ?_, ?_, ?_⟩
  · intro h12; simp only [Vm.dispatch, h12, Opcode.try_from_8]
  · intro h12; simp only [Vm.dispatch, h12, Opcode.try_from_13]
  · intro hv
    simp only [instructions.trap, TrapCode.try_from_eq_none hv]
  · intro h12
    simp only [Vm.dispatch, h12, Opcode.try_from_0]
    rcases hx : instructions.br instr regs with e | r1 <;> simp [hx, Except.map]
  · intro h12
    simp only [Vm.dispatch, h12, Opcode.try_from_1]
    rcases hx : instructions.add instr regs with e | r1 <;>
      simp [hx, Except.map]
  · intro h12
    simp only [Vm.dispatch, h12, Opcode.try_from_2]
    rcases hx : instructions.ld instr regs mem io with e | ⟨r1, m1, io1⟩ <;>
      simp [hx, Except.map]
  · intro h12
    simp only [Vm.dispatch, h12, Opcode.try_from_3]
    rcases hx : instructions.st instr regs mem with e | m1 <;>
      simp [hx, Except.map]
  · intro h12
    simp only [Vm.dispatch, h12, Opcode.try_from_4]
    rcases hx : instructions.jsr instr regs with e | r1 <;>
      simp [hx, Except.map]
  · intro h12
    simp only [Vm.dispatch, h12, Opcode.try_from_5]
    rcases hx : instructions.and instr regs with e | r1 <;>
      simp [hx, Except.map]
  · intro h12
    simp only [Vm.dispatch, h12, Opcode.try_from_6]
    rcases hx : instructions.ldr instr regs mem io with e | ⟨r1, m1, io1⟩ <;>
      simp [hx, Except.map]
  · intro h12
    simp only [Vm.dispatch, h12, Opcode.try_from_7]
    rcases hx : instructions.str instr regs mem with e | m1 <;>
      simp [hx, Except.map]
  · intro h12
    simp only [Vm.dispatch, h12, Opcode.try_from_9]
    rcases hx : instructions.not instr regs with e | r1 <;>
      simp [hx, Except.map]
  · intro h12
    simp only [Vm.dispatch, h12, Opcode.try_from_10]
    rcases hx : instructions.ldi instr regs mem io with e | ⟨r1, m1, io1⟩ <;>
      simp [hx, Except.map]
  · intro h12
    simp only [Vm.dispatch, h12, Opcode.try_from_11]
    rcases hx : instructions.sti instr regs mem io with e | ⟨m1, io1⟩ <;>
      simp [hx, Except.map]
  · intro h12
    simp only [Vm.dispatch, h12, Opcode.try_from_12]
    rcases hx : instructions.jmp instr regs with e | r1 <;>
      simp [hx, Except.map]
  · intro h12
    simp only [Vm.dispatch, h12, Opcode.try_from_14]
    rcases hx : instructions.lea instr regs with e | r1 <;>
      simp [hx, Except.map]
  · intro h12
    simp only [Vm.dispatch, h12, Opcode.try_from_15]

/-- Witness for C9 at the three error classes and one defined dispatch. -/
theorem c9_witness :
    Vm.dispatch 0x8000 Registers.new Memory.new ⟨[], []⟩ =
      .error (.illegalOpcode 8) ∧
    Vm.dispatch 0xD000 Registers.new Memory.new ⟨[], []⟩ =
      .error (.illegalOpcode 13) ∧
    instructions.trap 0xF026 Registers.new Memory.new ⟨[], []⟩ =
      .error (.unsupportedTrap (0xF026 &&& 0xFF)) ∧
    Vm.dispatch 0x0000 Registers.new Memory.new ⟨[], []⟩ =
      (instructions.br 0x0000 Registers.new).map
        (fun r1 => (false, r1, Memory.new, ⟨[], []⟩)) :=
  ⟨(c9_illegal_opcodes_and_traps 0x8000 Registers.new Memory.new
      ⟨[], []⟩).1 rfl,
   (c9_illegal_opcodes_and_traps 0xD000 Registers.new Memory.new
      ⟨[], []⟩).2.1 rfl,
   (c9_illegal_opcodes_and_traps 0xF026 Registers.new Memory.new
      ⟨[], []⟩).2.2.1 (by decide),
   (c9_illegal_opcodes_and_traps 0x0000 Registers.new Memory.new
      ⟨[], []⟩).2.2.2.1 rfl⟩

/-- Behaviour of the copy loop on a well-formed (all-bytes) stream: it
always succeeds, writes the `k`-th word at `address + k` for every word
that fits below `MEMORY_SIZE`, and touches nothing else. -/
theorem Vm.load_loop_encode (words : List Nat) :
    ∀ (m : Memory) (address : Nat),
    ∃ m1, Vm.load_loop m address (encode_words words) = .ok m1 ∧
      (∀ k, k < words.length → address + k < MEMORY_SIZE →
        m1.mem (address + k) = words.getD k 0) ∧
      (∀ a, a < address ∨ MEMORY_SIZE ≤ a ∨ address + words.length ≤ a →
        m1.mem a = m.mem a) := by
  induction words with
  | nil =>
    intro m address
    refine ⟨m, ?_, ?_, fun a _ => rfl⟩
    · rw [Vm.load_loop]
      by_cases h : address < MEMORY_SIZE
      · rw [dif_pos h]; rfl
      · rw [dif_neg h]
    · intro k hk
      simp at hk
  | cons w ws ih =>
    intro m address
    by_cases h : address < MEMORY_SIZE
    · obtain ⟨m1, hload, hplace, hframe⟩ :=
        ih ⟨fun i => if i = address then w else m.mem i⟩ (address + 1)
      refine ⟨m1, ?_, ?_, ?_⟩
      · simp only [encode_words]
        rw [Vm.load_loop, dif_pos h]
        simp only [read_u16_be]
        have hw : w / 256 * 256 + w % 256 = w := by omega
        simp only [hw]
        exact hload
      · intro k hk hlt
        cases k with
        | zero =>
          rw [Nat.add_zero, hframe address (Or.inl (by omega))]
          show (if address = address then w else m.mem address) =
            (w :: ws).getD 0 0
          rw [if_pos rfl]
          rfl
        | succ k =>
          have h1 : address + (k + 1) = (address + 1) + k := by omega
          have hk2 : k < ws.length := by
            simp only [List.length_cons] at hk; omega
          rw [h1, hplace k hk2 (by omega)]
          rfl
      · intro a ha
        have hlen : (w :: ws).length = ws.length + 1 := List.length_cons w ws
        have hcond : a < address + 1 ∨ MEMORY_SIZE ≤ a ∨
            (address + 1) + ws.length ≤ a := by
          rcases ha with ha | ha | ha
          · exact Or.inl (by omega)
          · exact Or.inr (Or.inl ha)
          · rw [hlen] at ha
            exact Or.inr (Or.inr (by omega))
        have hne : a ≠ address := by
          rcases ha with ha | ha | ha
          · omega
          · omega
          · rw [hlen] at ha; omega
        rw [hframe a hcond]
        show (if a = address then w else m.mem a) = m.mem a
        rw [if_neg hne]
    · refine ⟨m, ?_, ?_, fun a _ => rfl⟩
      · rw [Vm.load_loop, dif_neg h]
      · intro k hk hlt
        omega

/-! ## Claim C7 -/

/-- **C7 counterexample.**  The claim says loading stops only when the
stream is exhausted or the boundary of the (2^16-word) address space is
reached.  But the loop bound is `MEMORY_SIZE = 65535`: loading the image
`origin = 0xFFFE, words 0xAAAA 0xBBBB` succeeds after writing only
`0xAAAA` at `0xFFFE`; the second word is silently dropped and the valid
16-bit address `0xFFFF` stays zero, although the stream was not exhausted
when loading stopped. -/
theorem c7_counterexample :
    ∃ m1, Vm.load_program Memory.new
        [.byte 0xFF, .byte 0xFE, .byte 0xAA, .byte 0xAA,
         .byte 0xBB, .byte 0xBB] = .ok m1 ∧
      m1.mem 0xFFFE = 0xAAAA ∧ m1.mem 0xFFFF = 0 := by
  refine ⟨⟨fun i => if i = 0xFFFE then 0xAAAA else Memory.new.mem i⟩, ?_,
    by norm_num, by norm_num [Memory.new]⟩
  simp only [Vm.load_program, read_u16_be]
  norm_num
  rw [Vm.load_loop]
  norm_num [read_u16_be, MEMORY_SIZE]
  rw [Vm.load_loop]
  norm_num [MEMORY_SIZE]

/-- **C7 (amended).**  `load_program` reads a big-endian origin word and
then big-endian words into consecutive addresses starting at the origin,
stopping when the stream is exhausted *or the address counter reaches
`MEMORY_SIZE = 65535`* (one word short of the 2^16-word address space), so
no address `≥ 65535` is ever written; a clean end-of-stream yields success,
while a truncated header or any other I/O failure yields an explicit
error. -/
theorem c7_amended_load_program :
    (∀ (m : Memory), Vm.load_program m [] = .error .unexpectedEof) ∧
    (∀ (m : Memory) b, Vm.load_program m [.byte b] =
      .error .unexpectedEof) ∧
    (∀ (m : Memory) s, Vm.load_program m (.ioErr :: s) =
      .error .otherError) ∧
    (∀ (m : Memory) (origin : Nat) (words : List Nat),
      ∃ m1, Vm.load_program m (encode_words (origin :: words)) = .ok m1 ∧
        (∀ k, k < words.length → origin + k < MEMORY_SIZE →
          m1.mem (origin + k) = words.getD k 0) ∧
        (∀ a, a < origin ∨ MEMORY_SIZE ≤ a ∨ origin + words.length ≤ a →
          m1.mem a = m.mem a)) ∧
    (∀ (m : Memory) (origin : Nat) (s : List ByteResult),
      origin < MEMORY_SIZE →
      Vm.load_program m (encode_words [origin] ++ .ioErr :: s) =
        .error .otherError) := by
  refine ⟨fun m => rfl, fun m b => rfl, fun m s => rfl, ?_, ?_⟩
  · intro m origin words
    obtain ⟨m1, hload, hplace, hframe⟩ := Vm.load_loop_encode words m origin
    refine ⟨m1, ?_, hplace, hframe⟩
    simp only [encode_words, Vm.load_program, read_u16_be]
    have hw : origin / 256 * 256 + origin % 256 = origin := by omega
    simp only [hw]
    exact hload
  · intro m origin s h
    simp only [encode_words, List.cons_append, List.nil_append,
      Vm.load_program, read_u16_be]
    have hw : origin / 256 * 256 + origin % 256 = origin := by omega
    simp only [hw]
    rw [Vm.load_loop, dif_pos h]
    rfl

/-- Witness for the hypothesis-bearing conjunct of the amended C7: an I/O error
right after a valid origin fails the load. -/
theorem c7_amended_witness :
    Vm.load_program Memory.new (encode_words [0x3000] ++ .ioErr :: []) =
      .error .otherError :=
  c7_amended_load_program.2.2.2.2 Memory.new 0x3000 [] (by decide)
